import Mathlib

/-
Shallow embedding of `src/xls_to_json.py`: a script that loads a "Project
Sheet" and a "Distribution Sheet", normalizes cell values, matches each
project row with distribution rows over a four-field key, and emits nested
JSON entries.

Modelling conventions:
  - a spreadsheet cell after loading is `Cell := Option String`; `none`
    models a missing value (Python `None` / pandas `NaN`), `some s` a value
    whose Python string form is `s`;
  - Python `str.strip()` is modelled by `pyStrip` (drop whitespace at both
    ends); Python `str(x)` for a missing value is `"nan"` (pandas `NaN`
    prints as `nan`; actual `None` is intercepted by `is_placeholder`
    before `str` is ever applied, so the choice is irrelevant there);
  - a pandas DataFrame is a `Table`: a list of column names plus a list of
    rows, each row an association list from column name to `Cell`;
    `df[c]` on an absent column (a Python `KeyError`) is modelled by the
    enclosing function returning `none`; `row.get(c, d)` is `pyget`;
  - file I/O, sheet loading and JSON serialization are outside the model:
    `convert` is modelled from the point where both loaded tables exist.
-/

namespace Xls

abbrev Cell := Option String

abbrev Row := List (String × Cell)

def wsB (c : Char) : Bool := c.isWhitespace

/-- Data of Python `str.strip()`: drop whitespace from both ends of the
character list. -/
def stripData (l : List Char) : List Char :=
  ((l.dropWhile wsB).reverse.dropWhile wsB).reverse

/-- Python `str.strip()` on a string. -/
def pyStrip (s : String) : String := String.mk (stripData s.data)

/-- Python `str(x)` on a cell: a present value is already its string form;
a missing value prints as `"nan"`. -/
def pyStr : Cell → String
  | none => "nan"
  | some s => s

/-- PLACEHOLDERS from the source: values conventionally meaning "no data". -/
def PLACEHOLDERS : List String := ["", "-", "—", "–", "`", "nan", "NaN", "None"]

/-- is_placeholder from the source: `None` is a placeholder; otherwise the
stripped string form must be in PLACEHOLDERS. -/
def is_placeholder : Cell → Bool
  | none => true
  | some s => PLACEHOLDERS.contains (pyStrip s)

/-- normalize_string from the source. -/
def normalize_string (x : Cell) : String :=
  if is_placeholder x then "" else pyStrip (pyStr x)

/-- normalize_id from the source. -/
def normalize_id (x : Cell) : String :=
  if is_placeholder x then "" else pyStrip (pyStr x)

/-- normalize_number_like from the source. -/
def normalize_number_like (x : Cell) : String :=
  if is_placeholder x then "-" else pyStrip (pyStr x)

/-- Value of column `c` in row `r`; a binding that is absent from the
association list stands for a `NaN` cell. -/
def cellOf (r : Row) (c : String) : Cell := (r.lookup c).getD none

/-- Value of column `c` in row `r` after pandas `.fillna("")`. -/
def cellD (r : Row) (c : String) : String := (cellOf r c).getD ""

/-- A loaded sheet: the column names present in the DataFrame, and its rows. -/
structure Table where
  cols : List String
  rows : List Row
deriving DecidableEq

/-- Python `row.get(c, d)` on a pandas row of a frame whose columns are
`cols`: the default applies only when the column is absent from the frame. -/
def pyget (cols : List String) (r : Row) (c : String) (d : Cell) : Cell :=
  if cols.contains c then cellOf r c else d

/-- Overwrite column `c` of row `r` with `f` of its current value. -/
def updateCell (c : String) (f : Cell → Cell) (r : Row) : Row :=
  (c, f (cellOf r c)) :: r

/-- `df[c] = df[c].map(f)` guarded by `if c in df.columns` as in `prepare`. -/
def mapCol (t : Table) (c : String) (f : Cell → Cell) : Table :=
  if t.cols.contains c then
    { cols := t.cols, rows := t.rows.map (updateCell c f) }
  else t

/-- `df[c] = <series computed from each row>`: adds a new column. -/
def addCol (t : Table) (c : String) (f : Row → Cell) : Table :=
  { cols := t.cols ++ [c], rows := t.rows.map (fun r => (c, f r) :: r) }

def normStrCell (x : Cell) : Cell := some (normalize_string x)

def normIdCell (x : Cell) : Cell := some (normalize_id x)

def normNumCell (x : Cell) : Cell := some (normalize_number_like x)

/-- Python `str.lower()`, modelled characterwise. -/
def pyLower (s : String) : String := String.mk (s.data.map Char.toLower)

/-- pandas `.str.lower()`: lowercases a present value, keeps `NaN`. -/
def lowerCell : Cell → Cell := Option.map pyLower

/-- Normalization phase of `prepare` on one table: the text columns, then
ids and year, then numbers, each guarded by column presence, in the order
of the source's loops. -/
def prepNorm (t : Table) : Table :=
  mapCol (mapCol (mapCol (mapCol (mapCol (mapCol (mapCol (mapCol (mapCol
    (mapCol (mapCol (mapCol t
      "project_name" normStrCell)
      "subproject_name" normStrCell)
      "country_region" normStrCell)
      "type_and_status" normStrCell)
      "targeted_entities" normStrCell)
      "notes" normStrCell)
      "sources" normStrCell)
      "effective_period" normStrCell)
      "project_id" normIdCell)
      "subproject_id" normIdCell)
      "year_announced" normStrCell)
      "numbers" normNumCell

/-- Lines 105-108 of the source: add the lowercased project-name helper
column when `project_name` is present. -/
def addPnLc (t : Table) : Table :=
  if t.cols.contains "project_name" then
    addCol t "project_name_lc" (fun r => lowerCell (cellOf r "project_name"))
  else t

/-- Lines 110-113 of the source: add the lowercased subproject-name helper
column when `subproject_name` is present. -/
def addSpnLc (t : Table) : Table :=
  if t.cols.contains "subproject_name" then
    addCol t "subproject_name_lc" (fun r => lowerCell (cellOf r "subproject_name"))
  else t

/-- prepare from the source, acting on one table (the function body treats
`proj` and `dist` identically, column by column, in this order): normalize
the columns, then add the lowercased helper columns for name matching. -/
def prepareTable (t : Table) : Table := addSpnLc (addPnLc (prepNorm t))

/-- prepare from the source: both tables are normalized the same way. -/
def prepare (proj dist : Table) : Table × Table :=
  (prepareTable proj, prepareTable dist)

/-- One element of an entry's `distributions` list, as built at lines
141-152 of the source. -/
structure DistOut where
  distribution_name : Cell
  distribution_id : Cell
  year_announced : Cell
  effective_period : Cell
  country_region : Cell
  type_and_status : Cell
  numbers : Cell
  targeted_entities : Cell
  notes : Cell
  sources : Cell
deriving DecidableEq

/-- The dict appended for one matched distribution row `r` of a frame with
columns `cols` (source lines 140-152). -/
def mkDistOut (cols : List String) (r : Row) : DistOut :=
  { distribution_name := pyget cols r "distribution_name" (some "")
    distribution_id := pyget cols r "distribution_id" (some "")
    year_announced := pyget cols r "year_announced" (some "")
    effective_period := pyget cols r "effective_period" (some "")
    country_region := pyget cols r "country_region" (some "")
    type_and_status := pyget cols r "type_and_status" (some "")
    numbers :=
      if pyStrip (pyStr (pyget cols r "numbers" (some ""))) ≠ "" then
        pyget cols r "numbers" (some "-")
      else some "-"
    targeted_entities := pyget cols r "targeted_entities" (some "")
    notes := pyget cols r "notes" (some "")
    sources := pyget cols r "sources" (some "") }

/-- One output entry (source lines 161-175): the project row's fields plus
the matched distributions. -/
structure Entry where
  project_name : Cell
  project_id : String
  year_announced : String
  effective_period : Cell
  country_region : Cell
  type_and_status : Cell
  numbers : Cell
  targeted_entities : Cell
  notes : Cell
  sources : Cell
  subproject_name : String
  subproject_id : String
  distributions : List DistOut
deriving DecidableEq

/-- The entry dict built from one prepared project row `r` (frame columns
`cols`), with distributions `ds`. -/
def mkEntry (cols : List String) (r : Row) (ds : List DistOut) : Entry :=
  { project_name := pyget cols r "project_name" (some "")
    project_id := normalize_id (pyget cols r "project_id" (some ""))
    year_announced := normalize_string (pyget cols r "year_announced" (some ""))
    effective_period := pyget cols r "effective_period" (some "")
    country_region := pyget cols r "country_region" (some "")
    type_and_status := pyget cols r "type_and_status" (some "")
    numbers :=
      if pyStrip (pyStr (pyget cols r "numbers" (some ""))) ≠ "" then
        pyget cols r "numbers" (some "-")
      else some "-"
    targeted_entities := pyget cols r "targeted_entities" (some "")
    notes := pyget cols r "notes" (some "")
    sources := pyget cols r "sources" (some "")
    subproject_name := normalize_string (pyget cols r "subproject_name" (some ""))
    subproject_id := normalize_id (pyget cols r "subproject_id" (some ""))
    distributions := ds }

/-- Python `(x or "")` applied to an entry's `project_name` value, which is
either a string or `None`: both `None` and `""` collapse to `""`. -/
def keyStr (x : Cell) : String := x.getD ""

/-- The strict row mask of `build_distributions` (source lines 119-124):
the four key columns, `.fillna("")`, compared exactly. -/
def strictPred (e : Entry) (r : Row) : Bool :=
  (cellD r "project_id" == e.project_id) &&
  (cellD r "subproject_id" == e.subproject_id) &&
  (cellD r "subproject_name" == e.subproject_name) &&
  (cellD r "project_name" == keyStr e.project_name)

/-- The fallback row mask of `build_distributions` (source lines 128-136):
lowercased names plus exact subproject_id; project_id is not compared. -/
def fallbackPred (e : Entry) (r : Row) : Bool :=
  (cellD r "project_name_lc" == pyLower (keyStr e.project_name)) &&
  (cellD r "subproject_name_lc" == pyLower e.subproject_name) &&
  (cellD r "subproject_id" == e.subproject_id)

/-- build_distributions from the source. Accessing `dist[c]` for an absent
column is a Python `KeyError`, modelled as `none`; the fallback columns are
only touched when the strict subset is empty, exactly as in the code. -/
def build_distributions (e : Entry) (dist : Table) : Option (List DistOut) :=
  if dist.cols.contains "project_id" && dist.cols.contains "subproject_id" &&
     dist.cols.contains "subproject_name" && dist.cols.contains "project_name" then
    if (dist.rows.filter (strictPred e)).isEmpty then
      if dist.cols.contains "project_name_lc" &&
         dist.cols.contains "subproject_name_lc" then
        some ((dist.rows.filter (fallbackPred e)).map (mkDistOut dist.cols))
      else none
    else some ((dist.rows.filter (strictPred e)).map (mkDistOut dist.cols))
  else none

/-- The entry loop of `convert` (source lines 160-177): build each entry,
then its distributions; a `KeyError` anywhere aborts the conversion. -/
def convertRows (pcols : List String) (rows : List Row) (dist : Table) :
    Option (List Entry) :=
  match rows with
  | [] => some []
  | r :: rs =>
    match build_distributions (mkEntry pcols r []) dist, convertRows pcols rs dist with
    | some ds, some rest => some (mkEntry pcols r ds :: rest)
    | _, _ => none

/-- convert from the source, modelled from the point where both loaded
tables exist (file I/O and JSON serialization are outside the model). -/
def convert (proj dist : Table) : Option (List Entry) :=
  let p := prepareTable proj
  let d := prepareTable dist
  convertRows p.cols p.rows d

/-- Key tuple of a distribution row, read off the four key columns with
`.fillna("")` semantics. -/
def rowKey (r : Row) : String × String × String × String :=
  (cellD r "project_name", cellD r "project_id",
   cellD r "subproject_name", cellD r "subproject_id")

/-- Key tuple of an entry, as `build_distributions` reads it. -/
def entryKey (e : Entry) : String × String × String × String :=
  (keyStr e.project_name, e.project_id, e.subproject_name, e.subproject_id)

/-- Matcher written from the spec's words, for comparison with
`build_distributions`: return the ordered subset of rows whose key tuple
equals `k` under exact string equality; only if that subset is empty, retry
with case-insensitive equality on the two names and exact equality on
subproject_id, with project_id not compared. -/
def specMatchRows (k : String × String × String × String) (rows : List Row) :
    List Row :=
  if (rows.filter (fun r => decide (rowKey r = k))).isEmpty then
    rows.filter (fun r =>
      (pyLower (cellD r "project_name") == pyLower k.1) &&
      (pyLower (cellD r "subproject_name") == pyLower k.2.2.1) &&
      (cellD r "subproject_id" == k.2.2.2))
  else rows.filter (fun r => decide (rowKey r = k))

/-- All values of column `c`, one per row, in row order. -/
def colVals (t : Table) (c : String) : List Cell :=
  t.rows.map (fun r => cellOf r c)

/-- Concrete project sheet: one row, subproject_name holds the placeholder
dash, the year cell holds a range, the numbers cell a currency amount. -/
def tblProjA : Table :=
  { cols := ["project_name", "project_id", "subproject_name", "subproject_id",
      "year_announced", "numbers", "notes"],
    rows := [[("project_name", some "Fund A"), ("project_id", some "1"),
      ("subproject_name", some "-"), ("subproject_id", some ""),
      ("year_announced", some "2020-2021"), ("numbers", some " $1,000 "),
      ("notes", some "n")]] }

/-- Concrete distribution sheet matching `tblProjA`'s row exactly on the
normalized key. -/
def tblDistA : Table :=
  { cols := ["project_name", "project_id", "subproject_name", "subproject_id",
      "distribution_name", "distribution_id", "numbers"],
    rows := [[("project_name", some "Fund A"), ("project_id", some "1"),
      ("subproject_name", some ""), ("subproject_id", some ""),
      ("distribution_name", some "Grant 1"), ("distribution_id", some "D1"),
      ("numbers", some "")]] }

/-- Concrete project sheet with two rows: the first shares the distribution
row's exact key, the second matches only case-insensitively and under a
different project_id. -/
def tblProjB : Table :=
  { cols := ["project_name", "project_id", "subproject_name", "subproject_id"],
    rows := [[("project_name", some "Fund A"), ("project_id", some "1"),
      ("subproject_name", some ""), ("subproject_id", some "")],
      [("project_name", some "fund a"), ("project_id", some "2"),
      ("subproject_name", some ""), ("subproject_id", some "")]] }

/-- Concrete distribution sheet with a single row keyed to `tblProjB`'s
first project row. -/
def tblDistB : Table :=
  { cols := ["project_name", "project_id", "subproject_name", "subproject_id",
      "distribution_id"],
    rows := [[("project_name", some "Fund A"), ("project_id", some "1"),
      ("subproject_name", some ""), ("subproject_id", some ""),
      ("distribution_id", some "D1")]] }

/-- Concrete distribution sheet lacking the `project_name` key column. -/
def tblDistC : Table :=
  { cols := ["project_id", "subproject_name", "subproject_id", "distribution_id"],
    rows := [[("project_id", some "1"), ("subproject_name", some ""),
      ("subproject_id", some ""), ("distribution_id", some "D1")]] }

/-- The entries produced by converting the A-tables. -/
def entsA : List Entry := (convert tblProjA tblDistA).getD []

/-- The single entry produced by converting the A-tables. -/
def eA : Entry := entsA.headD (mkEntry [] [] [])

/-- The single distribution attached to `eA`. -/
def xA : DistOut := eA.distributions.headD (mkDistOut [] [])

/-- The single prepared distribution row of `tblDistA`. -/
def dRowA : Row := (prepareTable tblDistA).rows.headD []

/-- The single prepared distribution row of `tblDistB`. -/
def dRowB : Row := (prepareTable tblDistB).rows.headD []

/-- An entry built from the prepared project row of `tblProjA`, before its
distributions are attached. -/
def eC1 : Entry :=
  mkEntry (prepareTable tblProjA).cols ((prepareTable tblProjA).rows.headD []) []

/-- The distribution list the matcher returns for `eC1` against the
prepared `tblDistA`. -/
def lC1 : List DistOut :=
  (build_distributions eC1 (prepareTable tblDistA)).getD []

theorem dropWhile_head_false {α : Type} (p : α → Bool) :
    ∀ (l : List α) (a : α), (List.dropWhile p l).head? = some a → p a = false := by
  intro l
  induction l with
  | nil => intro a h; simp [List.dropWhile] at h
  | cons b t ih =>
    intro a h
    by_cases hb : p b
    · rw [List.dropWhile_cons_of_pos hb] at h
      exact ih a h
    · rw [List.dropWhile_cons_of_neg hb] at h
      simp only [List.head?_cons, Option.some.injEq] at h
      rw [← h]
      exact Bool.of_not_eq_true hb

theorem dropWhile_of_head_false {α : Type} (p : α → Bool) (l : List α)
    (h : ∀ a, l.head? = some a → p a = false) : List.dropWhile p l = l := by
  cases l with
  | nil => rfl
  | cons a t => exact List.dropWhile_cons_of_neg (by simp [h a rfl])

theorem dropWhile_idem {α : Type} (p : α → Bool) (l : List α) :
    List.dropWhile p (List.dropWhile p l) = List.dropWhile p l :=
  dropWhile_of_head_false p _ (dropWhile_head_false p l)

theorem dropWhile_suffix' {α : Type} (p : α → Bool) :
    ∀ l : List α, ∃ t, t ++ List.dropWhile p l = l := by
  intro l
  induction l with
  | nil => exact ⟨[], rfl⟩
  | cons a t ih =>
    by_cases ha : p a
    · obtain ⟨u, hu⟩ := ih
      exact ⟨a :: u, by rw [List.dropWhile_cons_of_pos ha, List.cons_append, hu]⟩
    · exact ⟨[], by rw [List.dropWhile_cons_of_neg ha, List.nil_append]⟩

theorem stripData_idem (l : List Char) : stripData (stripData l) = stripData l := by
  unfold stripData
  have h1 : List.dropWhile wsB ((List.dropWhile wsB
      (List.dropWhile wsB l).reverse).reverse) =
      (List.dropWhile wsB (List.dropWhile wsB l).reverse).reverse := by
    apply dropWhile_of_head_false
    intro a ha
    rw [List.head?_reverse] at ha
    rcases eq_or_ne (List.dropWhile wsB (List.dropWhile wsB l).reverse) [] with hnil | hne
    · rw [hnil] at ha; simp at ha
    · obtain ⟨u, hu⟩ := dropWhile_suffix' wsB (List.dropWhile wsB l).reverse
      have h2 : ((List.dropWhile wsB l).reverse).getLast? = some a := by
        rw [← hu, List.getLast?_append_of_ne_nil _ hne]; exact ha
      rw [List.getLast?_reverse] at h2
      exact dropWhile_head_false wsB l a h2
  rw [h1, List.reverse_reverse, dropWhile_idem]

theorem pyStrip_idem (s : String) : pyStrip (pyStrip s) = pyStrip s := by
  unfold pyStrip
  exact congrArg String.mk (stripData_idem s.data)

theorem cellOf_cons (c c' : String) (v : Cell) (r : Row) :
    cellOf ((c, v) :: r) c' = if c' = c then v else cellOf r c' := by
  simp only [cellOf, List.lookup_cons]
  by_cases h : c' = c
  · simp [h]
  · simp [h, beq_eq_false_iff_ne.mpr h]

theorem cellOf_updateCell (c c' : String) (f : Cell → Cell) (r : Row) :
    cellOf (updateCell c f r) c' = if c' = c then f (cellOf r c) else cellOf r c' :=
  cellOf_cons c c' _ r

theorem cols_mapCol (t : Table) (c : String) (f : Cell → Cell) :
    (mapCol t c f).cols = t.cols := by
  unfold mapCol; split <;> rfl

theorem cols_addCol (t : Table) (c : String) (f : Row → Cell) :
    (addCol t c f).cols = t.cols ++ [c] := rfl

theorem rows_length_mapCol (t : Table) (c : String) (f : Cell → Cell) :
    (mapCol t c f).rows.length = t.rows.length := by
  unfold mapCol; split <;> simp

theorem rows_length_addCol (t : Table) (c : String) (f : Row → Cell) :
    (addCol t c f).rows.length = t.rows.length := by
  unfold addCol; simp

theorem colVals_mapCol_ne (t : Table) (c c' : String) (f : Cell → Cell)
    (h : c' ≠ c) : colVals (mapCol t c f) c' = colVals t c' := by
  unfold mapCol
  split
  · simp only [colVals, List.map_map]
    exact List.map_congr_left fun r _ => by
      simp [Function.comp, cellOf_updateCell, h]
  · rfl

theorem colVals_mapCol_self (t : Table) (c : String) (f : Cell → Cell)
    (h : t.cols.contains c = true) :
    colVals (mapCol t c f) c = (colVals t c).map f := by
  unfold mapCol
  rw [if_pos h]
  simp only [colVals, List.map_map]
  exact List.map_congr_left fun r _ => by
    simp [Function.comp, cellOf_updateCell]

theorem colVals_addCol_ne (t : Table) (c c' : String) (f : Row → Cell)
    (h : c' ≠ c) : colVals (addCol t c f) c' = colVals t c' := by
  unfold addCol
  simp only [colVals, List.map_map]
  exact List.map_congr_left fun r _ => by
    simp [Function.comp, cellOf_cons, h]

theorem cols_prepNorm (t : Table) : (prepNorm t).cols = t.cols := by
  simp [prepNorm, cols_mapCol]

theorem rows_length_prepNorm (t : Table) :
    (prepNorm t).rows.length = t.rows.length := by
  simp [prepNorm, rows_length_mapCol]

theorem rows_length_addPnLc (t : Table) :
    (addPnLc t).rows.length = t.rows.length := by
  unfold addPnLc; split <;> simp [rows_length_addCol]

theorem rows_length_addSpnLc (t : Table) :
    (addSpnLc t).rows.length = t.rows.length := by
  unfold addSpnLc; split <;> simp [rows_length_addCol]

theorem rows_length_prepareTable (t : Table) :
    (prepareTable t).rows.length = t.rows.length := by
  unfold prepareTable
  rw [rows_length_addSpnLc, rows_length_addPnLc, rows_length_prepNorm]

theorem cols_addPnLc_contains (t : Table) (c : String)
    (h1 : c ≠ "project_name_lc") :
    (addPnLc t).cols.contains c = t.cols.contains c := by
  unfold addPnLc; split <;> simp [cols_addCol, h1]

theorem cols_addSpnLc_contains (t : Table) (c : String)
    (h2 : c ≠ "subproject_name_lc") :
    (addSpnLc t).cols.contains c = t.cols.contains c := by
  unfold addSpnLc; split <;> simp [cols_addCol, h2]

theorem cols_prepareTable_contains (t : Table) (c : String)
    (h1 : c ≠ "project_name_lc") (h2 : c ≠ "subproject_name_lc") :
    (prepareTable t).cols.contains c = t.cols.contains c := by
  unfold prepareTable
  rw [cols_addSpnLc_contains _ _ h2, cols_addPnLc_contains _ _ h1]
  simp [cols_prepNorm]

theorem colVals_addPnLc_ne (t : Table) (c : String) (h1 : c ≠ "project_name_lc") :
    colVals (addPnLc t) c = colVals t c := by
  unfold addPnLc; split
  · exact colVals_addCol_ne _ _ _ _ h1
  · rfl

theorem colVals_addSpnLc_ne (t : Table) (c : String) (h2 : c ≠ "subproject_name_lc") :
    colVals (addSpnLc t) c = colVals t c := by
  unfold addSpnLc; split
  · exact colVals_addCol_ne _ _ _ _ h2
  · rfl

theorem colVals_prepareTable_eq_prepNorm (t : Table) (c : String)
    (h1 : c ≠ "project_name_lc") (h2 : c ≠ "subproject_name_lc") :
    colVals (prepareTable t) c = colVals (prepNorm t) c := by
  unfold prepareTable
  rw [colVals_addSpnLc_ne _ _ h2, colVals_addPnLc_ne _ _ h1]

theorem colVals_prepNorm_numbers (t : Table)
    (h : t.cols.contains "numbers" = true) :
    colVals (prepNorm t) "numbers" = (colVals t "numbers").map normNumCell := by
  unfold prepNorm
  rw [colVals_mapCol_self _ _ _ (by simp only [cols_mapCol]; exact h)]
  rw [colVals_mapCol_ne _ _ _ _ (by decide), colVals_mapCol_ne _ _ _ _ (by decide),
      colVals_mapCol_ne _ _ _ _ (by decide), colVals_mapCol_ne _ _ _ _ (by decide),
      colVals_mapCol_ne _ _ _ _ (by decide), colVals_mapCol_ne _ _ _ _ (by decide),
      colVals_mapCol_ne _ _ _ _ (by decide), colVals_mapCol_ne _ _ _ _ (by decide),
      colVals_mapCol_ne _ _ _ _ (by decide), colVals_mapCol_ne _ _ _ _ (by decide),
      colVals_mapCol_ne _ _ _ _ (by decide)]

theorem colVals_prepNorm_year (t : Table)
    (h : t.cols.contains "year_announced" = true) :
    colVals (prepNorm t) "year_announced" =
      (colVals t "year_announced").map normStrCell := by
  unfold prepNorm
  rw [colVals_mapCol_ne _ _ _ _ (by decide)]
  rw [colVals_mapCol_self _ _ _ (by simp only [cols_mapCol]; exact h)]
  rw [colVals_mapCol_ne _ _ _ _ (by decide), colVals_mapCol_ne _ _ _ _ (by decide),
      colVals_mapCol_ne _ _ _ _ (by decide), colVals_mapCol_ne _ _ _ _ (by decide),
      colVals_mapCol_ne _ _ _ _ (by decide), colVals_mapCol_ne _ _ _ _ (by decide),
      colVals_mapCol_ne _ _ _ _ (by decide), colVals_mapCol_ne _ _ _ _ (by decide),
      colVals_mapCol_ne _ _ _ _ (by decide), colVals_mapCol_ne _ _ _ _ (by decide)]

theorem strictPred_mkEntry (cols : List String) (r : Row) (ds : List DistOut)
    (d : Row) : strictPred (mkEntry cols r ds) d = strictPred (mkEntry cols r []) d :=
  rfl

theorem fallbackPred_mkEntry (cols : List String) (r : Row) (ds : List DistOut)
    (d : Row) : fallbackPred (mkEntry cols r ds) d = fallbackPred (mkEntry cols r []) d :=
  rfl

theorem build_distributions_sound (e : Entry) (dist : Table) (l : List DistOut)
    (h : build_distributions e dist = some l) (x : DistOut) (hx : x ∈ l) :
    ∃ d ∈ dist.rows, x = mkDistOut dist.cols d ∧
      (strictPred e d = true ∨ fallbackPred e d = true) := by
  unfold build_distributions at h
  split at h
  · split at h
    · split at h
      · obtain ⟨d, hd, hdx⟩ := List.mem_map.mp (by rw [← Option.some_inj.mp h] at hx; exact hx)
        exact ⟨d, (List.mem_filter.mp hd).1, hdx.symm, Or.inr (List.mem_filter.mp hd).2⟩
      · exact absurd h (by simp)
    · obtain ⟨d, hd, hdx⟩ := List.mem_map.mp (by rw [← Option.some_inj.mp h] at hx; exact hx)
      exact ⟨d, (List.mem_filter.mp hd).1, hdx.symm, Or.inl (List.mem_filter.mp hd).2⟩
  · exact absurd h (by simp)

theorem build_distributions_eq (e : Entry) (dist : Table) (l : List DistOut)
    (h : build_distributions e dist = some l) :
    (dist.rows.filter (strictPred e) ≠ [] ∧
      l = (dist.rows.filter (strictPred e)).map (mkDistOut dist.cols)) ∨
    (dist.rows.filter (strictPred e) = [] ∧
      l = (dist.rows.filter (fallbackPred e)).map (mkDistOut dist.cols)) := by
  unfold build_distributions at h
  split at h
  · split at h
    · split at h
      · exact Or.inr ⟨by simpa using ‹(dist.rows.filter (strictPred e)).isEmpty = true›,
          (Option.some_inj.mp h).symm⟩
      · exact absurd h (by simp)
    · exact Or.inl ⟨by simpa using ‹¬(dist.rows.filter (strictPred e)).isEmpty = true›,
        (Option.some_inj.mp h).symm⟩
  · exact absurd h (by simp)

theorem build_distributions_strict (e : Entry) (dist : Table)
    (hc : (dist.cols.contains "project_id" && dist.cols.contains "subproject_id" &&
      dist.cols.contains "subproject_name" && dist.cols.contains "project_name") = true)
    (d : Row) (hd : d ∈ dist.rows) (hp : strictPred e d = true) :
    build_distributions e dist =
      some ((dist.rows.filter (strictPred e)).map (mkDistOut dist.cols)) ∧
    mkDistOut dist.cols d ∈ (dist.rows.filter (strictPred e)).map (mkDistOut dist.cols) := by
  have hmem : d ∈ dist.rows.filter (strictPred e) := List.mem_filter.mpr ⟨hd, hp⟩
  have hne : (dist.rows.filter (strictPred e)).isEmpty = false := by
    simp only [List.isEmpty_eq_false]
    exact List.ne_nil_of_mem hmem
  constructor
  · unfold build_distributions
    rw [if_pos hc, hne]
    simp
  · exact List.mem_map_of_mem _ hmem

theorem convertRows_mem (pcols : List String) (rows : List Row) (dist : Table)
    (es : List Entry) (h : convertRows pcols rows dist = some es)
    (e : Entry) (he : e ∈ es) :
    ∃ r ∈ rows, ∃ ds, build_distributions (mkEntry pcols r []) dist = some ds ∧
      e = mkEntry pcols r ds := by
  induction rows generalizing es with
  | nil =>
    unfold convertRows at h
    rw [← Option.some_inj.mp h] at he
    exact absurd he (List.not_mem_nil e)
  | cons r rs ih =>
    unfold convertRows at h
    cases hb : build_distributions (mkEntry pcols r []) dist with
    | none => rw [hb] at h; exact absurd h (by simp)
    | some ds =>
      cases hc : convertRows pcols rs dist with
      | none => rw [hb, hc] at h; exact absurd h (by simp)
      | some rest =>
        rw [hb, hc] at h
        rw [← Option.some_inj.mp h] at he
        rcases List.mem_cons.mp he with h1 | h2
        · exact ⟨r, List.mem_cons_self r rs, ds, hb, h1⟩
        · obtain ⟨r', hr', ds', hb', he'⟩ := ih rest hc h2
          exact ⟨r', List.mem_cons_of_mem r hr', ds', hb', he'⟩

theorem convertRows_length (pcols : List String) (rows : List Row) (dist : Table)
    (es : List Entry) (h : convertRows pcols rows dist = some es) :
    es.length = rows.length := by
  induction rows generalizing es with
  | nil =>
    unfold convertRows at h
    rw [← Option.some_inj.mp h]
    rfl
  | cons r rs ih =>
    unfold convertRows at h
    cases hb : build_distributions (mkEntry pcols r []) dist with
    | none => rw [hb] at h; exact absurd h (by simp)
    | some ds =>
      cases hc : convertRows pcols rs dist with
      | none => rw [hb, hc] at h; exact absurd h (by simp)
      | some rest =>
        rw [hb, hc] at h
        rw [← Option.some_inj.mp h]
        simp [ih rest hc]

theorem convertRows_isSome (pcols : List String) (rows : List Row) (dist : Table)
    (hall : ∀ r ∈ rows, (build_distributions (mkEntry pcols r []) dist).isSome = true) :
    (convertRows pcols rows dist).isSome = true := by
  induction rows with
  | nil => rfl
  | cons r rs ih =>
    unfold convertRows
    obtain ⟨ds, hds⟩ := Option.isSome_iff_exists.mp (hall r (List.mem_cons_self r rs))
    obtain ⟨rest, hrest⟩ := Option.isSome_iff_exists.mp
      (ih (fun r' hr' => hall r' (List.mem_cons_of_mem r hr')))
    rw [hds, hrest]
    rfl

theorem strictPred_eq_decide (e : Entry) (d : Row) :
    strictPred e d = decide (rowKey d = entryKey e) := by
  rw [Bool.eq_iff_iff]
  simp only [strictPred, rowKey, entryKey, Bool.and_eq_true, beq_iff_eq,
    decide_eq_true_eq, Prod.mk.injEq]
  tauto

theorem getD_lowerCell (c : Cell) : (lowerCell c).getD "" = pyLower (c.getD "") := by
  cases c with
  | none => rfl
  | some s => rfl

theorem fallbackPred_eq_spec (e : Entry) (d : Row)
    (hpn : cellOf d "project_name_lc" = lowerCell (cellOf d "project_name"))
    (hspn : cellOf d "subproject_name_lc" = lowerCell (cellOf d "subproject_name")) :
    fallbackPred e d =
      ((pyLower (cellD d "project_name") == pyLower (entryKey e).1) &&
       (pyLower (cellD d "subproject_name") == pyLower (entryKey e).2.2.1) &&
       (cellD d "subproject_id" == (entryKey e).2.2.2)) := by
  simp only [fallbackPred, cellD, entryKey]
  rw [hpn, hspn, getD_lowerCell, getD_lowerCell]

theorem normalize_number_like_shape (x : Cell) :
    normalize_number_like x = "-" ∨
      (normalize_number_like x ≠ "" ∧
        pyStrip (normalize_number_like x) = normalize_number_like x) := by
  unfold normalize_number_like
  by_cases h : is_placeholder x = true
  · rw [if_pos h]; left; rfl
  · rw [if_neg h]
    right
    cases x with
    | none => exact absurd rfl h
    | some s =>
      have hc : PLACEHOLDERS.contains (pyStrip s) = false := by
        simp only [is_placeholder] at h
        exact Bool.of_not_eq_true h
      constructor
      · intro he
        have he' : pyStrip s = "" := he
        rw [he'] at hc
        exact absurd hc (by decide)
      · exact pyStrip_idem s

theorem numbersField_shape (cols : List String) (r : Row)
    (hcell : cols.contains "numbers" = true →
      ∃ x, cellOf r "numbers" = some (normalize_number_like x)) :
    ∃ s, (if pyStrip (pyStr (pyget cols r "numbers" (some ""))) ≠ "" then
        pyget cols r "numbers" (some "-")
      else some "-") = some s ∧ s ≠ "" ∧ pyStrip s = s := by
  by_cases hc : cols.contains "numbers" = true
  · obtain ⟨x, hx⟩ := hcell hc
    have hv : ∀ d : Cell, pyget cols r "numbers" d = some (normalize_number_like x) := by
      intro d; unfold pyget; rw [if_pos hc, hx]
    rcases normalize_number_like_shape x with h1 | ⟨h2, h3⟩
    · refine ⟨"-", ?_, by decide, by decide⟩
      rw [if_pos ?_]
      · rw [hv, h1]
      · rw [hv, h1]
        decide
    · refine ⟨normalize_number_like x, ?_, h2, h3⟩
      rw [if_pos ?_]
      · exact hv _
      · rw [hv]
        simpa [pyStr, h3] using h2
  · have hv : ∀ d : Cell, pyget cols r "numbers" d = d := by
      intro d; unfold pyget; rw [if_neg hc]
    refine ⟨"-", ?_, by decide, by decide⟩
    rw [if_neg ?_]
    · rw [hv]
      simp [pyStr]
      decide

theorem prepared_numbers_cell (t : Table) (r : Row)
    (hr : r ∈ (prepareTable t).rows)
    (hc : (prepareTable t).cols.contains "numbers" = true) :
    ∃ x, cellOf r "numbers" = some (normalize_number_like x) := by
  have hcraw : t.cols.contains "numbers" = true := by
    rw [← cols_prepareTable_contains t "numbers" (by decide) (by decide)]
    exact hc
  have hmem : cellOf r "numbers" ∈ colVals (prepareTable t) "numbers" := by
    unfold colVals
    exact List.mem_map_of_mem _ hr
  rw [colVals_prepareTable_eq_prepNorm t _ (by decide) (by decide),
    colVals_prepNorm_numbers t hcraw] at hmem
  obtain ⟨c, _, he⟩ := List.mem_map.mp hmem
  exact ⟨c, by rw [← he]; rfl⟩

/-- C2: every raw cell value in the placeholder set (a missing value, or a
value whose stripped form is one of "", "-", the em dash, the en dash, the
backtick, "nan", "NaN", "None") normalizes to "" as a text field and to "-"
as a numeric field; every non-placeholder text input normalizes to its
stripped form with content unchanged. -/
theorem normalizer_placeholder_contract :
    (∀ x : Cell, (x = none ∨ ∃ s, x = some s ∧ pyStrip s ∈ PLACEHOLDERS) →
      normalize_string x = "" ∧ normalize_number_like x = "-") ∧
    (∀ s : String, pyStrip s ∉ PLACEHOLDERS → normalize_string (some s) = pyStrip s) := by
  constructor
  · rintro x (rfl | ⟨s, rfl, hs⟩)
    · exact ⟨rfl, rfl⟩
    · have hp : is_placeholder (some s) = true := by
        simpa [is_placeholder] using hs
      unfold normalize_string normalize_number_like
      rw [if_pos hp, if_pos hp]
      exact ⟨rfl, rfl⟩
  · intro s hs
    have hp : is_placeholder (some s) = false := by
      simpa [is_placeholder] using hs
    unfold normalize_string
    rw [if_neg (by simp [hp])]
    rfl

theorem normalizer_placeholder_contract_witness :
    normalize_string (some " - ") = "" ∧ normalize_number_like none = "-" ∧
      normalize_string (some " Fund A ") = "Fund A" :=
  ⟨(normalizer_placeholder_contract.1 (some " - ")
      (Or.inr ⟨" - ", rfl, by decide⟩)).1,
   (normalizer_placeholder_contract.1 none (Or.inl rfl)).2,
   (normalizer_placeholder_contract.2 " Fund A " (by decide)).trans (by decide)⟩

/-- C3 counterexample: the numeric-field normalizer performs no numeric
parse; the cell "$1,000" keeps its currency symbol and thousands separator
instead of becoming 1000. -/
theorem numeric_parse_cex :
    normalize_number_like (some "$1,000") = "$1,000" ∧
      ¬ normalize_number_like (some "$1,000") = "1000" := by
  decide

/-- C3 amended: for every non-placeholder numeric-field cell the normalizer
returns the stripped original string unchanged, with no numeric parse, no
separator or currency stripping and no integer coercion; in particular
"$1,000" stays "$1,000" and "abc" stays "abc". -/
theorem numeric_field_trims_only :
    (∀ s : String, pyStrip s ∉ PLACEHOLDERS →
      normalize_number_like (some s) = pyStrip s) ∧
    normalize_number_like (some "$1,000") = "$1,000" ∧
    normalize_number_like (some "abc") = "abc" := by
  refine ⟨?_, by decide, by decide⟩
  intro s hs
  have hp : is_placeholder (some s) = false := by
    simpa [is_placeholder] using hs
  unfold normalize_number_like
  rw [if_neg (by simp [hp])]
  rfl

theorem numeric_field_trims_only_witness :
    normalize_number_like (some " 7nm ") = pyStrip " 7nm " :=
  numeric_field_trims_only.1 " 7nm " (by decide)

/-- C4 counterexample: the year cell "2020-2021" is not reduced to its
leading 4-digit run; the produced entry keeps "2020-2021". -/
theorem year_extraction_cex :
    (convert tblProjA tblDistA).map (fun es => es.map (fun e => e.year_announced)) =
      some ["2020-2021"] ∧ ¬ ("2020-2021" : String) = "2020" := by
  decide

/-- C4 amended: `prepare` normalizes the year_announced column exactly like
a text column (placeholders to "", other values stripped); no leading
4-digit run is extracted, so "2020-2021" passes through unchanged. -/
theorem year_normalized_as_text (t : Table)
    (h : t.cols.contains "year_announced" = true) :
    colVals (prepareTable t) "year_announced" =
      (colVals t "year_announced").map normStrCell ∧
    normalize_string (some "2020-2021") = "2020-2021" := by
  constructor
  · rw [colVals_prepareTable_eq_prepNorm t _ (by decide) (by decide)]
    exact colVals_prepNorm_year t h
  · decide

theorem year_normalized_as_text_witness :
    colVals (prepareTable tblProjA) "year_announced" =
      (colVals tblProjA "year_announced").map normStrCell ∧
    normalize_string (some "2020-2021") = "2020-2021" :=
  year_normalized_as_text tblProjA (by decide)

/-- C9: the project row for "Fund A" whose subproject_name cell is the
placeholder "-" normalizes to an empty subproject_name, so the distribution
row keyed with an empty subproject_name attaches to the "Fund A" entry. -/
theorem fund_a_placeholder_scenario :
    (convert tblProjA tblDistA).map (fun es => es.map (fun e =>
      (e.project_name, e.subproject_name,
        e.distributions.map (fun x => x.distribution_id)))) =
    some [(some "Fund A", "", [some "D1"])] := by
  decide

/-- C1: against a distribution frame that carries the four key columns and
the two lowercased helper columns (as every frame leaving `prepare` with the
key columns does), the matcher returns exactly the ordered subset of rows
whose key tuple equals the entry's key tuple under exact string equality,
and only when that subset is empty does it retry with case-insensitive
equality on the two names and exact equality on subproject_id, with
project_id not compared. -/
theorem matcher_follows_spec (e : Entry) (dist : Table)
    (h4 : (dist.cols.contains "project_id" && dist.cols.contains "subproject_id" &&
      dist.cols.contains "subproject_name" && dist.cols.contains "project_name") = true)
    (hlc : (dist.cols.contains "project_name_lc" &&
      dist.cols.contains "subproject_name_lc") = true)
    (hrows : ∀ d ∈ dist.rows,
      cellOf d "project_name_lc" = lowerCell (cellOf d "project_name") ∧
      cellOf d "subproject_name_lc" = lowerCell (cellOf d "subproject_name")) :
    build_distributions e dist =
      some ((specMatchRows (entryKey e) dist.rows).map (mkDistOut dist.cols)) := by
  have hstrict : dist.rows.filter (strictPred e) =
      dist.rows.filter (fun r => decide (rowKey r = entryKey e)) :=
    List.filter_congr (fun d _ => strictPred_eq_decide e d)
  have hfb : dist.rows.filter (fallbackPred e) =
      dist.rows.filter (fun r =>
        (pyLower (cellD r "project_name") == pyLower (entryKey e).1) &&
        (pyLower (cellD r "subproject_name") == pyLower (entryKey e).2.2.1) &&
        (cellD r "subproject_id" == (entryKey e).2.2.2)) :=
    List.filter_congr (fun d hd =>
      fallbackPred_eq_spec e d (hrows d hd).1 (hrows d hd).2)
  unfold build_distributions specMatchRows
  rw [if_pos h4, hstrict]
  by_cases hemp :
      (dist.rows.filter (fun r => decide (rowKey r = entryKey e))).isEmpty = true
  · rw [if_pos hemp, if_pos hlc, if_pos hemp, hfb]
  · rw [if_neg hemp, if_neg hemp]

theorem matcher_follows_spec_witness :
    build_distributions eC1 (prepareTable tblDistA) =
      some ((specMatchRows (entryKey eC1) (prepareTable tblDistA).rows).map
        (mkDistOut (prepareTable tblDistA).cols)) :=
  matcher_follows_spec eC1 (prepareTable tblDistA) (by decide) (by decide) (by decide)

/-- C5 counterexample: in the B-tables the distribution row's key tuple is
carried by exactly one project row, yet its projection lands in the
distribution lists of both produced entries (the second entry picks it up
through the case-insensitive fallback), so it does not appear in exactly
one entry's list. -/
theorem round_trip_cex :
    ((prepareTable tblProjB).rows.countP
      (fun r => decide (rowKey r = rowKey dRowB))) = 1 ∧
    (convert tblProjB tblDistB).map (fun es => es.countP
      (fun e => decide (mkDistOut (prepareTable tblDistB).cols dRowB ∈
        e.distributions))) = some 2 := by
  decide

/-- C5 amended: no distribution row whose normalized key tuple exactly
equals an output entry's key tuple is dropped: it appears in that entry's
distributions list (and hence in the lists of all entries sharing the key);
a row may additionally attach to further entries through the relaxed
fallback, and a row matching no entry at all does not appear. -/
theorem strict_matches_attach (proj dist : Table) (entries : List Entry)
    (h : convert proj dist = some entries) (e : Entry) (he : e ∈ entries)
    (d : Row) (hd : d ∈ (prepareTable dist).rows) (hk : strictPred e d = true) :
    mkDistOut (prepareTable dist).cols d ∈ e.distributions := by
  unfold convert at h
  obtain ⟨r, _, ds, hb, hee⟩ := convertRows_mem _ _ _ _ h e he
  have hc : ((prepareTable dist).cols.contains "project_id" &&
      (prepareTable dist).cols.contains "subproject_id" &&
      (prepareTable dist).cols.contains "subproject_name" &&
      (prepareTable dist).cols.contains "project_name") = true := by
    by_contra hcn
    have hnone : build_distributions (mkEntry (prepareTable proj).cols r [])
        (prepareTable dist) = none := by
      unfold build_distributions
      rw [if_neg hcn]
    rw [hnone] at hb
    exact absurd hb (by simp)
  have hk' : strictPred (mkEntry (prepareTable proj).cols r []) d = true := by
    rw [← strictPred_mkEntry (prepareTable proj).cols r ds d, ← hee]
    exact hk
  obtain ⟨heq, hmem⟩ := build_distributions_strict
    (mkEntry (prepareTable proj).cols r []) (prepareTable dist) hc d hd hk'
  have hds : ds = ((prepareTable dist).rows.filter
      (strictPred (mkEntry (prepareTable proj).cols r []))).map
      (mkDistOut (prepareTable dist).cols) := by
    rw [hb] at heq
    exact Option.some_inj.mp heq
  rw [hee]
  show mkDistOut (prepareTable dist).cols d ∈
    (mkEntry (prepareTable proj).cols r ds).distributions
  rw [show (mkEntry (prepareTable proj).cols r ds).distributions = ds from rfl, hds]
  exact hmem

theorem strict_matches_attach_witness :
    mkDistOut (prepareTable tblDistA).cols dRowA ∈ eA.distributions :=
  strict_matches_attach tblProjA tblDistA entsA (by decide) eA (by decide)
    dRowA (by decide) (by decide)

/-- C7: every distribution object in a produced entry's list is the
projection of a distribution row of the prepared distribution table whose
key matches the owning entry's key either under the strict comparison or
under the relaxed fallback; the matcher is a pure function of the two
tables and returns a fresh list, mutating neither dataset. -/
theorem distributions_match_owner_key (proj dist : Table) (entries : List Entry)
    (h : convert proj dist = some entries) (e : Entry) (he : e ∈ entries)
    (x : DistOut) (hx : x ∈ e.distributions) :
    ∃ d ∈ (prepareTable dist).rows, x = mkDistOut (prepareTable dist).cols d ∧
      (strictPred e d = true ∨ fallbackPred e d = true) := by
  unfold convert at h
  obtain ⟨r, _, ds, hb, hee⟩ := convertRows_mem _ _ _ _ h e he
  have hx' : x ∈ ds := by
    rw [hee] at hx
    exact hx
  obtain ⟨d, hd, hxd, hor⟩ := build_distributions_sound _ _ _ hb x hx'
  refine ⟨d, hd, hxd, ?_⟩
  rw [hee]
  rcases hor with h1 | h2
  · exact Or.inl (by rw [strictPred_mkEntry]; exact h1)
  · exact Or.inr (by rw [fallbackPred_mkEntry]; exact h2)

theorem distributions_match_owner_key_witness :
    ∃ d ∈ (prepareTable tblDistA).rows,
      xA = mkDistOut (prepareTable tblDistA).cols d ∧
      (strictPred eA d = true ∨ fallbackPred eA d = true) :=
  distributions_match_owner_key tblProjA tblDistA entsA (by decide) eA (by decide)
    xA (by decide)

theorem prepared_contains_pn_lc (t : Table)
    (h : t.cols.contains "project_name" = true) :
    (prepareTable t).cols.contains "project_name_lc" = true := by
  unfold prepareTable
  have h13 : (addPnLc (prepNorm t)).cols.contains "project_name_lc" = true := by
    unfold addPnLc
    rw [if_pos (by rw [cols_prepNorm]; exact h)]
    simp [cols_addCol]
  unfold addSpnLc
  split
  · simp_all [cols_addCol]
  · exact h13

theorem prepared_contains_spn_lc (t : Table)
    (h : t.cols.contains "subproject_name" = true) :
    (prepareTable t).cols.contains "subproject_name_lc" = true := by
  unfold prepareTable addSpnLc
  rw [if_pos (by rw [cols_addPnLc_contains _ _ (by decide), cols_prepNorm]; exact h)]
  simp [cols_addCol]

/-- C6 counterexample: a distribution sheet that lacks the `project_name`
column makes the conversion fail (the strict mask indexes the column
directly, a KeyError), instead of treating the column as empty. -/
theorem missing_key_column_cex :
    tblDistC.cols.contains "project_name" = false ∧
      convert tblProjA tblDistC = none := by
  decide

/-- C6 amended: conversion tolerates absent columns everywhere except the
four key columns of the distribution sheet: whenever the distribution sheet
carries project_id, subproject_id, subproject_name and project_name, the
conversion succeeds with one entry per project row regardless of which
other columns are missing from either sheet, and an absent non-key column
is read as empty for every row (the numbers field as its "-" sentinel); if
one of those four key columns is absent the conversion fails instead. -/
theorem missing_columns_tolerated (proj dist : Table)
    (h4 : (dist.cols.contains "project_id" && dist.cols.contains "subproject_id" &&
      dist.cols.contains "subproject_name" && dist.cols.contains "project_name") = true) :
    ∃ entries, convert proj dist = some entries ∧
      entries.length = proj.rows.length ∧
      (proj.cols.contains "notes" = false → ∀ e ∈ entries, e.notes = some "") ∧
      (dist.cols.contains "notes" = false →
        ∀ e ∈ entries, ∀ x ∈ e.distributions, x.notes = some "") ∧
      (dist.cols.contains "numbers" = false →
        ∀ e ∈ entries, ∀ x ∈ e.distributions, x.numbers = some "-") := by
  have h4' := h4
  rw [Bool.and_eq_true, Bool.and_eq_true, Bool.and_eq_true] at h4'
  obtain ⟨⟨⟨hpid, hspid⟩, hspn⟩, hpn⟩ := h4'
  have hc4 : ((prepareTable dist).cols.contains "project_id" &&
      (prepareTable dist).cols.contains "subproject_id" &&
      (prepareTable dist).cols.contains "subproject_name" &&
      (prepareTable dist).cols.contains "project_name") = true := by
    rw [Bool.and_eq_true, Bool.and_eq_true, Bool.and_eq_true]
    refine ⟨⟨⟨?_, ?_⟩, ?_⟩, ?_⟩ <;>
      rw [cols_prepareTable_contains _ _ (by decide) (by decide)] <;>
      assumption
  have hlc : ((prepareTable dist).cols.contains "project_name_lc" &&
      (prepareTable dist).cols.contains "subproject_name_lc") = true := by
    rw [Bool.and_eq_true]
    exact ⟨prepared_contains_pn_lc dist hpn, prepared_contains_spn_lc dist hspn⟩
  have hsome : ∀ r ∈ (prepareTable proj).rows,
      (build_distributions (mkEntry (prepareTable proj).cols r [])
        (prepareTable dist)).isSome = true := by
    intro r _
    unfold build_distributions
    rw [if_pos hc4]
    by_cases hemp : (List.filter (strictPred (mkEntry (prepareTable proj).cols r []))
        (prepareTable dist).rows).isEmpty = true
    · rw [if_pos hemp, if_pos hlc]; rfl
    · rw [if_neg hemp]; rfl
  obtain ⟨entries, hent⟩ := Option.isSome_iff_exists.mp
    (convertRows_isSome (prepareTable proj).cols (prepareTable proj).rows
      (prepareTable dist) hsome)
  refine ⟨entries, hent, ?_, ?_, ?_, ?_⟩
  · rw [convertRows_length _ _ _ _ hent, rows_length_prepareTable]
  · intro hn e he
    obtain ⟨r, _, ds, _, hee⟩ := convertRows_mem _ _ _ _ hent e he
    rw [hee]
    have hcn : (prepareTable proj).cols.contains "notes" = false := by
      rw [cols_prepareTable_contains _ _ (by decide) (by decide)]; exact hn
    simp only [mkEntry]
    simp only [pyget]
    rw [if_neg (by simp only [hcn]; decide)]
  · intro hn e he x hx
    obtain ⟨r, _, ds, hb, hee⟩ := convertRows_mem _ _ _ _ hent e he
    have hx' : x ∈ ds := by rw [hee] at hx; exact hx
    obtain ⟨d, _, hxd, _⟩ := build_distributions_sound _ _ _ hb x hx'
    rw [hxd]
    have hcn : (prepareTable dist).cols.contains "notes" = false := by
      rw [cols_prepareTable_contains _ _ (by decide) (by decide)]; exact hn
    simp only [mkDistOut]
    simp only [pyget]
    rw [if_neg (by simp only [hcn]; decide)]
  · intro hn e he x hx
    obtain ⟨r, _, ds, hb, hee⟩ := convertRows_mem _ _ _ _ hent e he
    have hx' : x ∈ ds := by rw [hee] at hx; exact hx
    obtain ⟨d, _, hxd, _⟩ := build_distributions_sound _ _ _ hb x hx'
    rw [hxd]
    have hcn : (prepareTable dist).cols.contains "numbers" = false := by
      rw [cols_prepareTable_contains _ _ (by decide) (by decide)]; exact hn
    have hcc : ¬ ((prepareTable dist).cols.contains "numbers" = true) := by
      simp only [hcn]; decide
    simp only [mkDistOut]
    simp only [pyget]
    rw [if_neg hcc, if_neg hcc]
    rw [if_neg (by decide)]

theorem missing_columns_tolerated_witness :
    ∃ entries, convert tblProjA tblDistA = some entries ∧
      entries.length = tblProjA.rows.length ∧
      (tblProjA.cols.contains "notes" = false → ∀ e ∈ entries, e.notes = some "") ∧
      (tblDistA.cols.contains "notes" = false →
        ∀ e ∈ entries, ∀ x ∈ e.distributions, x.notes = some "") ∧
      (tblDistA.cols.contains "numbers" = false →
        ∀ e ∈ entries, ∀ x ∈ e.distributions, x.numbers = some "-") :=
  missing_columns_tolerated tblProjA tblDistA (by decide)

/-- C8: the matcher's result is the image, in source-table order, of the
filter of the distribution rows by the strict mask (or, exactly when that
filter is empty, by the fallback mask); hence matching is a deterministic
function of the input tables, preserves the source order, and keeps every
duplicate: each row passing the strict mask contributes at least as many
occurrences to the result as it has in the table, with no deduplication. -/
theorem matching_order_and_duplicates (e : Entry) (dist : Table) (l : List DistOut)
    (h : build_distributions e dist = some l) :
    ((dist.rows.filter (strictPred e) ≠ [] ∧
        l = (dist.rows.filter (strictPred e)).map (mkDistOut dist.cols)) ∨
      (dist.rows.filter (strictPred e) = [] ∧
        l = (dist.rows.filter (fallbackPred e)).map (mkDistOut dist.cols))) ∧
    (∀ d : Row, strictPred e d = true → dist.rows.filter (strictPred e) ≠ [] →
      dist.rows.countP (fun r => decide (r = d)) ≤
        l.countP (fun y => decide (y = mkDistOut dist.cols d))) := by
  have hch := build_distributions_eq e dist l h
  refine ⟨hch, ?_⟩
  intro d hp hne
  have key : ∀ L : List Row, L.countP (fun r => decide (r = d)) ≤
      ((L.filter (strictPred e)).map (mkDistOut dist.cols)).countP
        (fun y => decide (y = mkDistOut dist.cols d)) := by
    intro L
    induction L with
    | nil => simp
    | cons a t ih =>
      rw [List.countP_cons]
      by_cases hpa : strictPred e a = true
      · rw [List.filter_cons_of_pos hpa, List.map_cons, List.countP_cons]
        refine Nat.add_le_add ih ?_
        by_cases had : a = d
        · subst had; simp
        · simp [had]
      · rw [List.filter_cons_of_neg hpa]
        have had : decide (a = d) = false := by
          by_cases had : a = d
          · subst had; exact absurd hp hpa
          · simp [had]
        rw [had]
        simpa using ih
  rcases hch with ⟨_, hl⟩ | ⟨hemp, _⟩
  · rw [hl]
    exact key dist.rows
  · exact absurd hemp hne

theorem matching_order_and_duplicates_witness :
    (((prepareTable tblDistA).rows.filter (strictPred eC1) ≠ [] ∧
        lC1 = ((prepareTable tblDistA).rows.filter (strictPred eC1)).map
          (mkDistOut (prepareTable tblDistA).cols)) ∨
      ((prepareTable tblDistA).rows.filter (strictPred eC1) = [] ∧
        lC1 = ((prepareTable tblDistA).rows.filter (fallbackPred eC1)).map
          (mkDistOut (prepareTable tblDistA).cols))) ∧
    (∀ d : Row, strictPred eC1 d = true →
      (prepareTable tblDistA).rows.filter (strictPred eC1) ≠ [] →
      (prepareTable tblDistA).rows.countP (fun r => decide (r = d)) ≤
        lC1.countP (fun y => decide (y = mkDistOut (prepareTable tblDistA).cols d))) :=
  matching_order_and_duplicates eC1 (prepareTable tblDistA) lC1 (by decide)

/-- C10: in every successful conversion, the numbers field of every entry
and of every attached distribution is a present, non-empty string that
equals its own stripped form: a cell that is absent or collapses to the
placeholder set is emitted as the sentinel "-", any other cell as its
stripped value, so the serialized numbers field is never the empty
string. -/
theorem numbers_never_empty (proj dist : Table) (entries : List Entry)
    (h : convert proj dist = some entries) (e : Entry) (he : e ∈ entries) :
    (∃ s, e.numbers = some s ∧ s ≠ "" ∧ pyStrip s = s) ∧
    (∀ x ∈ e.distributions, ∃ s, x.numbers = some s ∧ s ≠ "" ∧ pyStrip s = s) := by
  unfold convert at h
  obtain ⟨r, hr, ds, hb, hee⟩ := convertRows_mem _ _ _ _ h e he
  constructor
  · rw [hee]
    have hshape := numbersField_shape (prepareTable proj).cols r
      (fun hc => prepared_numbers_cell proj r hr hc)
    simpa only [mkEntry] using hshape
  · intro x hx
    have hx' : x ∈ ds := by rw [hee] at hx; exact hx
    obtain ⟨d, hd, hxd, _⟩ := build_distributions_sound _ _ _ hb x hx'
    rw [hxd]
    have hshape := numbersField_shape (prepareTable dist).cols d
      (fun hc => prepared_numbers_cell dist d hd hc)
    simpa only [mkDistOut] using hshape

theorem numbers_never_empty_witness :
    (∃ s, eA.numbers = some s ∧ s ≠ "" ∧ pyStrip s = s) ∧
    (∀ x ∈ eA.distributions, ∃ s, x.numbers = some s ∧ s ≠ "" ∧ pyStrip s = s) :=
  numbers_never_empty tblProjA tblDistA entsA (by decide) eA (by decide)

end Xls
